import Mathlib

/-!
Verification development for the `bedrock` web-scaffolding library
(Go sources: `bedrock.go`, `auth.go`, `password.go`, `health.go`,
`config/config.go`).  The Go code is shallowly embedded: pure helpers
become Lean functions, ambient effects (environment variables, the
clock) become explicit parameters, and the server lifecycle becomes a
function producing an event trace.  External libraries that the spec
declares out of scope (TOML decoding, the JWT wire format, HMAC) are
modelled symbolically but injectively, so that every claim about the
repository's own control flow is decided by the embedding.
-/

namespace Bedrock

/-! ### Go string primitives

`strings.Split(s, sep)` for a one-character separator, modelled on the
character list.  Go's `Split` never returns an empty list: splitting
the empty string yields `[""]`. -/

def splitChar (sep : Char) : List Char → List (List Char)
  | [] => [[]]
  | c :: rest =>
    let r := splitChar sep rest
    if c = sep then [] :: r
    else
      match r with
      | [] => [[c]]
      | h :: t => (c :: h) :: t

/-- `strings.Split s (String.singleton sep)` from Go's `strings` package,
for a single-character separator. -/
def goSplit (sep : Char) (s : String) : List String :=
  (splitChar sep s.data).map (fun cs => ⟨cs⟩)

theorem splitChar_ne_nil (sep : Char) (cs : List Char) : splitChar sep cs ≠ [] := by
  cases cs with
  | nil => simp [splitChar]
  | cons c rest =>
    simp only [splitChar]
    split
    · simp
    · split
      · simp
      · simp

theorem splitChar_append_sep (sep : Char) (a b : List Char) (ha : sep ∉ a) :
    splitChar sep (a ++ sep :: b) = a :: splitChar sep b := by
  induction a with
  | nil => simp [splitChar]
  | cons c rest ih =>
    simp only [List.mem_cons, not_or] at ha
    obtain ⟨hc, hrest⟩ := ha
    simp only [List.cons_append, splitChar, List.append_eq]
    rw [ih hrest]
    simp [Ne.symm hc]

theorem splitChar_no_sep (sep : Char) (a : List Char) (ha : sep ∉ a) :
    splitChar sep a = [a] := by
  induction a with
  | nil => simp [splitChar]
  | cons c rest ih =>
    simp only [List.mem_cons, not_or] at ha
    obtain ⟨hc, hrest⟩ := ha
    simp only [splitChar]
    rw [ih hrest]
    simp [Ne.symm hc]

/-! ### `config` package (`config/config.go`)

`BaseConfig` carries bedrock's core settings.  Go `int` fields are
modelled as `Int` (64-bit range checks appear where `strconv` imposes
them). -/

structure BaseConfig where
  HTTPPort : Int
  HealthPort : Int
  MetricsPort : Int
  LogLevel : String
  Environment : String
  deriving Repr, DecidableEq

/-- Largest value of Go's 64-bit `int`. -/
def maxInt64 : Nat := 2 ^ 63 - 1

/-- Digit-string to value, as `strconv`'s inner loop: every character must
be a decimal digit and there must be at least one. -/
def goParseDigits (cs : List Char) : Option Nat :=
  if cs = [] then none
  else if cs.all (fun c => c.isDigit) then
    some (cs.foldl (fun a c => a * 10 + (c.toNat - '0'.toNat)) 0)
  else none

/-- `strconv.Atoi` (= `strconv.ParseInt(s, 10, 0)` on a 64-bit platform):
optional single leading sign, then decimal digits; out-of-range values
are errors. -/
def goAtoi (s : String) : Option Int :=
  match s.data with
  | '+' :: rest =>
    (goParseDigits rest).bind fun n =>
      if n ≤ maxInt64 then some (n : Int) else none
  | '-' :: rest =>
    (goParseDigits rest).bind fun n =>
      if n ≤ maxInt64 + 1 then some (-(n : Int)) else none
  | cs =>
    (goParseDigits cs).bind fun n =>
      if n ≤ maxInt64 then some (n : Int) else none

/-- The process environment: `os.Getenv` returns `""` for unset
variables, so the environment is a total function to strings. -/
def Env : Type := String → String

/-- `resolvePort` from `config/config.go`: check `NOMAD_PORT_<label>`;
unset means fall back, an unparsable value logs a warning (out of scope
here) and falls back, a parsed value wins. -/
def resolvePort (getenv : Env) (label : String) (fallback : Int) : Int :=
  let nomadPort := getenv ("NOMAD_PORT_" ++ label)
  if nomadPort = "" then fallback
  else
    match goAtoi nomadPort with
    | none => fallback
    | some port => port

/-- `(*BaseConfig).GetHTTPPort`. -/
def BaseConfig.GetHTTPPort (b : BaseConfig) (getenv : Env) : Int :=
  resolvePort getenv "http" b.HTTPPort

/-- `(*BaseConfig).GetHealthPort`. -/
def BaseConfig.GetHealthPort (b : BaseConfig) (getenv : Env) : Int :=
  resolvePort getenv "health" b.HealthPort

/-- `(*BaseConfig).GetMetricsPort`. -/
def BaseConfig.GetMetricsPort (b : BaseConfig) (getenv : Env) : Int :=
  resolvePort getenv "metrics" b.MetricsPort

/-! ### JWT model (`auth.go` over `golang-jwt/jwt/v5`)

The wire format (base64url-encoded JSON segments joined by `.`) and
HMAC signing are library internals that the spec places out of scope;
they are modelled by an injective, dot-free symbolic encoding.  The
repository's own logic — `GenerateJWT`'s claim set and `ValidateJWT`'s
keyfunc, validity check and `sub` extraction — is translated directly.
Ambient `time.Now()` becomes an explicit `now` parameter; durations are
whole seconds. -/

/-- Signing algorithms registered with the library (a representative
subset; any other `alg` value fails method lookup exactly like an
unregistered one). -/
inductive Alg
  | HS256 | HS384 | HS512 | RS256 | ES256 | EdDSA | noneAlg
  deriving Repr, DecidableEq

def Alg.name : Alg → String
  | .HS256 => "HS256"
  | .HS384 => "HS384"
  | .HS512 => "HS512"
  | .RS256 => "RS256"
  | .ES256 => "ES256"
  | .EdDSA => "EdDSA"
  | .noneAlg => "none"

/-- `jwt.GetSigningMethod`: look an algorithm up by its header name. -/
def algOfName (s : String) : Option Alg :=
  if s = "HS256" then some .HS256
  else if s = "HS384" then some .HS384
  else if s = "HS512" then some .HS512
  else if s = "RS256" then some .RS256
  else if s = "ES256" then some .ES256
  else if s = "EdDSA" then some .EdDSA
  else if s = "none" then some .noneAlg
  else none

/-- The keyfunc in `ValidateJWT` type-asserts `*jwt.SigningMethodHMAC`:
exactly the HS family. -/
def Alg.isHMAC : Alg → Bool
  | .HS256 | .HS384 | .HS512 => true
  | _ => false

/-- A JSON claim value as `jwt.MapClaims` sees it (strings and numbers
are the shapes this code produces and reads). -/
inductive ClaimVal
  | str (s : String)
  | num (n : Int)
  deriving Repr, DecidableEq

/-- One character of the symbolic segment encoding: the separator
characters `.` `;` `:` and the escape `\` are escaped, every other
character stands for itself. -/
def escChar (c : Char) : List Char :=
  if c = '.' then ['\\', 'd']
  else if c = ';' then ['\\', 'v']
  else if c = ':' then ['\\', 'c']
  else if c = '\\' then ['\\', 'b']
  else [c]

def unescChar (t : Char) : Option Char :=
  if t = 'd' then some '.'
  else if t = 'v' then some ';'
  else if t = 'c' then some ':'
  else if t = 'b' then some '\\'
  else none

def escList : List Char → List Char
  | [] => []
  | c :: rest => escChar c ++ escList rest

def unescList : List Char → Option (List Char)
  | [] => some []
  | c :: rest =>
    if c = '\\' then
      match rest with
      | [] => none
      | t :: rest2 =>
        match unescChar t with
        | none => none
        | some c2 => (unescList rest2).map (fun l => c2 :: l)
    else if c = '.' then none
    else if c = ';' then none
    else if c = ':' then none
    else (unescList rest).map (fun l => c :: l)

theorem escChar_cases (c : Char) :
    (escChar c = [c] ∧ c ≠ '.' ∧ c ≠ ';' ∧ c ≠ ':' ∧ c ≠ '\\') ∨
    (∃ t, escChar c = ['\\', t] ∧ unescChar t = some c) := by
  by_cases h1 : c = '.'
  · exact Or.inr ⟨'d', by simp [escChar, unescChar, h1]⟩
  · by_cases h2 : c = ';'
    · exact Or.inr ⟨'v', by simp [escChar, unescChar, h2]⟩
    · by_cases h3 : c = ':'
      · exact Or.inr ⟨'c', by simp [escChar, unescChar, h3]⟩
      · by_cases h4 : c = '\\'
        · exact Or.inr ⟨'b', by simp [escChar, unescChar, h4]⟩
        · exact Or.inl ⟨by simp [escChar, h1, h2, h3, h4], h1, h2, h3, h4⟩

theorem unescList_cons_plain {c : Char} (h1 : c ≠ '.') (h2 : c ≠ ';')
    (h3 : c ≠ ':') (h4 : c ≠ '\\') (rest : List Char) :
    unescList (c :: rest) = (unescList rest).map (fun l => c :: l) := by
  rw [unescList.eq_def]
  simp [h1, h2, h3, h4]

theorem unescList_cons_escaped {t c2 : Char} (ht : unescChar t = some c2)
    (rest : List Char) :
    unescList ('\\' :: t :: rest) = (unescList rest).map (fun l => c2 :: l) := by
  rw [unescList.eq_def]
  simp [ht]

theorem unescList_escList (cs : List Char) : unescList (escList cs) = some cs := by
  induction cs with
  | nil => simp [escList, unescList]
  | cons c rest ih =>
    rcases escChar_cases c with ⟨he, h1, h2, h3, h4⟩ | ⟨t, he, ht⟩
    · simp only [escList, he, List.singleton_append]
      rw [unescList_cons_plain h1 h2 h3 h4, ih]
      rfl
    · simp only [escList, he, List.cons_append, List.singleton_append, List.nil_append]
      rw [unescList_cons_escaped ht, ih]
      rfl

/-- The escape tags (`d`, `v`, `c`, `b`) are themselves ordinary
characters, never separators. -/
theorem unescChar_tag_not_sep {t c2 : Char} (ht : unescChar t = some c2) :
    t ≠ '.' ∧ t ≠ ';' ∧ t ≠ ':' := by
  refine ⟨?_, ?_, ?_⟩ <;> rintro rfl <;> simp [unescChar] at ht

theorem mem_escList_not_sep {x : Char} {cs : List Char} (hx : x ∈ escList cs) :
    x ≠ '.' ∧ x ≠ ';' ∧ x ≠ ':' := by
  induction cs with
  | nil => simp [escList] at hx
  | cons c rest ih =>
    simp only [escList, List.mem_append] at hx
    rcases hx with h | h
    · rcases escChar_cases c with ⟨he, h1, h2, h3, _⟩ | ⟨t, he, ht⟩
      · rw [he] at h
        simp only [List.mem_singleton] at h
        subst h
        exact ⟨h1, h2, h3⟩
      · rw [he] at h
        simp only [List.mem_cons, List.not_mem_nil, or_false] at h
        rcases h with rfl | rfl
        · exact ⟨by decide, by decide, by decide⟩
        · exact unescChar_tag_not_sep ht
    · exact ih h

/-- Unary integer encoding used for numeric claims. -/
def encInt (n : Int) : List Char :=
  (if n < 0 then ['m'] else ['p']) ++ List.replicate n.natAbs '1'

def decInt : List Char → Option Int
  | 'p' :: rest =>
    if rest.all (fun c => c = '1') then some (rest.length : Int) else none
  | 'm' :: rest =>
    if rest.all (fun c => c = '1') then some (-(rest.length : Int)) else none
  | _ => none

theorem decInt_encInt (n : Int) : decInt (encInt n) = some n := by
  by_cases h : n < 0
  · have : ((n.natAbs : Int)) = -n := by
      omega
    simp [encInt, decInt, h, List.all_eq_true, this]
  · have : ((n.natAbs : Int)) = n := by
      omega
    simp [encInt, decInt, h, List.all_eq_true, this]

theorem mem_encInt {x : Char} {n : Int} (hx : x ∈ encInt n) :
    x ≠ '.' ∧ x ≠ ';' ∧ x ≠ ':' := by
  unfold encInt at hx
  rcases List.mem_append.mp hx with h | h
  · split at h <;> simp only [List.mem_singleton] at h <;> subst h <;> exact ⟨by decide, by decide, by decide⟩
  · have := List.eq_of_mem_replicate h
    subst this
    exact ⟨by decide, by decide, by decide⟩

/-- A claim value as a payload fragment: a one-character type tag, then
the encoded value. -/
def encodeValL : ClaimVal → List Char
  | .str s => 's' :: escList s.data
  | .num n => 'n' :: encInt n

def decodeValL : List Char → Option ClaimVal
  | 's' :: rest => (unescList rest).map (fun l => ClaimVal.str ⟨l⟩)
  | 'n' :: rest => (decInt rest).map ClaimVal.num
  | _ => none

theorem decodeValL_encodeValL (v : ClaimVal) : decodeValL (encodeValL v) = some v := by
  cases v with
  | str s => simp [encodeValL, decodeValL, unescList_escList]
  | num n => simp [encodeValL, decodeValL, decInt_encInt]

theorem mem_encodeValL_not_sep {x : Char} {v : ClaimVal} (hx : x ∈ encodeValL v) :
    x ≠ '.' ∧ x ≠ ';' ∧ x ≠ ':' := by
  cases v with
  | str s =>
    simp only [encodeValL, List.mem_cons] at hx
    rcases hx with h | h
    · subst h; exact ⟨by decide, by decide, by decide⟩
    · exact mem_escList_not_sep h
  | num n =>
    simp only [encodeValL, List.mem_cons] at hx
    rcases hx with h | h
    · subst h; exact ⟨by decide, by decide, by decide⟩
    · exact mem_encInt h

/-- One `"key":value` member of the claims object. -/
def encodeClaimL (k : String) (v : ClaimVal) : List Char :=
  escList k.data ++ ':' :: encodeValL v

def decodeClaimL (entry : List Char) : Option (String × ClaimVal) :=
  match splitChar ':' entry with
  | [k, v] =>
    match unescList k, decodeValL v with
    | some kl, some cv => some (⟨kl⟩, cv)
    | _, _ => none
  | _ => none

theorem decodeClaimL_encodeClaimL (k : String) (v : ClaimVal) :
    decodeClaimL (encodeClaimL k v) = some (k, v) := by
  unfold decodeClaimL encodeClaimL
  rw [splitChar_append_sep ':' _ _ (fun h => (mem_escList_not_sep h).2.2 rfl)]
  rw [splitChar_no_sep ':' _ (fun h => (mem_encodeValL_not_sep h).2.2 rfl)]
  simp [unescList_escList, decodeValL_encodeValL]

theorem mem_encodeClaimL {x : Char} {k : String} {v : ClaimVal}
    (hx : x ∈ encodeClaimL k v) : x ≠ '.' ∧ x ≠ ';' := by
  unfold encodeClaimL at hx
  rcases List.mem_append.mp hx with h | h
  · have := mem_escList_not_sep h
    exact ⟨this.1, this.2.1⟩
  · simp only [List.mem_cons] at h
    rcases h with h | h
    · subst h; exact ⟨by decide, by decide⟩
    · have := mem_encodeValL_not_sep h
      exact ⟨this.1, this.2.1⟩

/-- Join JSON object members with `;` (the model's stand-in for the
comma of the JSON object serialization). -/
def joinSemis : List (List Char) → List Char
  | [] => []
  | [x] => x
  | x :: xs => x ++ ';' :: joinSemis xs

/-- The claims object as a payload segment: members joined by `;`. -/
def encodeClaimsL (cs : List (String × ClaimVal)) : List Char :=
  joinSemis (cs.map fun kv => encodeClaimL kv.1 kv.2)

def decodeClaimsL (p : List Char) : Option (List (String × ClaimVal)) :=
  (splitChar ';' p).mapM decodeClaimL

theorem mem_encodeClaimsL {x : Char} {cs : List (String × ClaimVal)}
    (hx : x ∈ encodeClaimsL cs) : x ≠ '.' := by
  unfold encodeClaimsL at hx
  induction cs with
  | nil => simp [joinSemis] at hx
  | cons kv rest ih =>
    cases rest with
    | nil =>
      simp only [List.map_cons, List.map_nil, joinSemis] at hx
      exact (mem_encodeClaimL hx).1
    | cons kv2 rest2 =>
      simp only [List.map_cons, joinSemis, List.mem_append, List.mem_cons] at hx
      rcases hx with h | h | h
      · exact (mem_encodeClaimL h).1
      · subst h; decide
      · exact ih (by simpa [joinSemis] using h)

theorem decodeClaimsL_encodeClaimsL (cs : List (String × ClaimVal)) (hne : cs ≠ []) :
    decodeClaimsL (encodeClaimsL cs) = some cs := by
  unfold decodeClaimsL encodeClaimsL
  induction cs with
  | nil => exact absurd rfl hne
  | cons kv rest ih =>
    cases rest with
    | nil =>
      simp only [List.map_cons, List.map_nil, joinSemis]
      rw [splitChar_no_sep ';' _ (fun h => (mem_encodeClaimL h).2 rfl)]
      simp [List.mapM.loop, decodeClaimL_encodeClaimL]
    | cons kv2 rest2 =>
      have ihr := ih (by simp)
      simp only [List.map_cons, joinSemis] at ihr ⊢
      rw [splitChar_append_sep ';' _ _ (fun h => (mem_encodeClaimL h).2 rfl)]
      simp only [List.mapM_cons, decodeClaimL_encodeClaimL, Option.bind_eq_bind,
        Option.some_bind] at ihr ⊢
      rw [ihr]
      rfl

/-- Symbolic HMAC: the tag records exactly the signing input and the
key, so a signature verifies under a key iff it was produced over the
same signing string with that same key (the Dolev–Yao idealisation of
`hmac.Sum` + `hmac.Equal`).  The result is dot-free, as base64url
output is. -/
def hmacSigL (signingString : List Char) (secret : String) : List Char :=
  escList signingString ++ ';' :: escList secret.data

theorem mem_hmacSigL_ne_dot {x : Char} {ss : List Char} {secret : String}
    (hx : x ∈ hmacSigL ss secret) : x ≠ '.' := by
  unfold hmacSigL at hx
  rcases List.mem_append.mp hx with h | h
  · exact (mem_escList_not_sep h).1
  · simp only [List.mem_cons] at h
    rcases h with rfl | h
    · decide
    · exact (mem_escList_not_sep h).1

/-- `GenerateJWT` from `auth.go`: `jwt.RegisteredClaims{Subject,
IssuedAt, ExpiresAt}` signed with HS256.  The struct marshals `sub`
with `omitempty`, so an empty `userID` is dropped from the payload;
`exp`/`iat` are non-nil `NumericDate`s and always appear.  `time.Now()`
is the explicit `now`; `expiration` is in whole seconds.  (HMAC signing
cannot fail, so the Go `error` result is always `nil` and elided.) -/
def GenerateJWT (now : Int) (userID secret : String) (expiration : Int) : String :=
  let claims : List (String × ClaimVal) :=
    (if userID = "" then [] else [("sub", ClaimVal.str userID)]) ++
      [("exp", ClaimVal.num (now + expiration)), ("iat", ClaimVal.num now)]
  let header : List Char := (Alg.HS256).name.data
  let payload : List Char := encodeClaimsL claims
  let signing : List Char := header ++ '.' :: payload
  ⟨signing ++ '.' :: hmacSigL signing secret⟩

/-- Lookup in a decoded `jwt.MapClaims`: Go's JSON decoder keeps the
last occurrence of a duplicated object key. -/
def lookupClaim (k : String) (claims : List (String × ClaimVal)) : Option ClaimVal :=
  (claims.reverse.find? (fun kv => kv.1 = k)).map (fun kv => kv.2)

/-- The `exp` check the library's validator performs after signature
verification: a token is still valid iff `now < exp` (strict `Before`);
a missing `exp` is not required by default; a non-numeric `exp` fails
`NumericDate` parsing and invalidates the token. -/
def expiredAt (now : Int) (claims : List (String × ClaimVal)) : Bool :=
  match lookupClaim "exp" claims with
  | some (ClaimVal.num e) => decide (e ≤ now)
  | some _ => true
  | none => false

/-- `ValidateJWT` from `auth.go`, with the stages of
`jwt.Parse` made explicit in the library's order: split into three
segments, decode the header's `alg`, decode the claims, run the
keyfunc (which rejects every non-HMAC method), verify the signature
under `[]byte(secret)`, validate the registered claims (`exp`), then
the function's own `claims["sub"].(string)` extraction. -/
def ValidateJWT (now : Int) (tokenString secret : String) : Except String String :=
  match splitChar '.' tokenString.data with
  | [h, p, s] =>
    match algOfName ⟨h⟩ with
    | none => Except.error "token is unverifiable: signing method (alg) is unavailable"
    | some alg =>
      if !alg.isHMAC then Except.error "invalid signing method"
      else
        match decodeClaimsL p with
        | none => Except.error "token is malformed"
        | some claims =>
          if s ≠ hmacSigL (h ++ '.' :: p) secret then
            Except.error "token signature is invalid"
          else if expiredAt now claims then
            Except.error "token has invalid claims: token is expired"
          else
            match lookupClaim "sub" claims with
            | some (ClaimVal.str userID) => Except.ok userID
            | _ => Except.error "missing user ID in token"
  | _ => Except.error "token contains an invalid number of segments"

/-! ### Handlers, responses and request context
(`bedrock.go`, `password.go` for `Middleware`/`Chain`, `auth.go` for
the context accessors) -/

/-- `contextKey` is a private named string type; using it as the key
type is what makes `userIDKey` collision-resistant, so context keys
are modelled as a dedicated inductive in which other packages' keys
live in a separate constructor. -/
inductive CtxKey
  | userIDKey
  | foreign (pkg key : String)
  deriving Repr, DecidableEq

/-- `context.Context` as its stack of `WithValue` frames, newest
first; `Value` is the first hit. -/
abbrev Context := List (CtxKey × String)

/-- `WithUserID` from `auth.go`. -/
def WithUserID (ctx : Context) (userID : String) : Context :=
  (CtxKey.userIDKey, userID) :: ctx

/-- `GetUserID` from `auth.go`: `ctx.Value(userIDKey).(string)` with
its `ok` flag. -/
def GetUserID (ctx : Context) : String × Bool :=
  match ctx.find? (fun kv => kv.1 = CtxKey.userIDKey) with
  | some kv => (kv.2, true)
  | none => ("", false)

/-- The only `Response` implementation the library ships: a status
code plus a JSON payload (here always the `map[string]string` shape
this code constructs). -/
structure JSONResponse where
  StatusCode : Nat
  Data : List (String × String)
  deriving Repr, DecidableEq

abbrev Response := JSONResponse

/-- `JSON(statusCode, data)` from `bedrock.go`. -/
def JSON (statusCode : Nat) (data : List (String × String)) : Response :=
  ⟨statusCode, data⟩

/-- An incoming request, reduced to what this code reads: its
headers. -/
structure Request where
  headers : List (String × String)

/-- `r.Header.Get(k)`: first value for the key, `""` when absent. -/
def headerGet (r : Request) (k : String) : String :=
  match r.headers.find? (fun kv => kv.1 = k) with
  | some kv => kv.2
  | none => ""

/-- `Handler` from `bedrock.go`. -/
abbrev Handler := Context → Request → Response

/-- `Middleware` from `password.go`. -/
abbrev Middleware := Handler → Handler

/-- `Chain` from `password.go`: the Go loop walks the middleware slice
from the last index down to 0, wrapping `final` at each step. -/
def Chain (handler : Handler) (middlewares : List Middleware) : Handler :=
  middlewares.reverse.foldl (fun final m => m final) handler

/-- `RequireAuth` from `auth.go`.  The ambient clock of the inner
`ValidateJWT` call is the explicit `now`. -/
def RequireAuth (now : Int) (secret : String) : Middleware :=
  fun next => fun ctx r =>
    let authHeader := headerGet r "Authorization"
    if authHeader = "" then
      JSON 401 [("error", "missing authorization header")]
    else
      match goSplit ' ' authHeader with
      | [scheme, token] =>
        if scheme ≠ "Bearer" then
          JSON 401 [("error", "invalid authorization format")]
        else
          match ValidateJWT now token secret with
          | Except.error _ => JSON 401 [("error", "invalid token")]
          | Except.ok userID => next (WithUserID ctx userID) r
      | _ => JSON 401 [("error", "invalid authorization format")]

/-! ### Health tracker (`health.go`) -/

structure HealthStatus where
  healthy : Bool
  ready : Bool
  deriving Repr, DecidableEq

/-- `newHealthStatus`: not healthy until `OnStart` succeeds, not ready
until the app says so. -/
def newHealthStatus : HealthStatus := ⟨false, false⟩

def HealthStatus.SetHealthy (h : HealthStatus) (b : Bool) : HealthStatus :=
  { h with healthy := b }

def HealthStatus.SetReady (h : HealthStatus) (b : Bool) : HealthStatus :=
  { h with ready := b }

def HealthStatus.IsHealthy (h : HealthStatus) : Bool := h.healthy

def HealthStatus.IsReady (h : HealthStatus) : Bool := h.ready

/-! ### Server runner (`bedrock.go`) -/

/-- `Route` from `bedrock.go`. -/
structure Route where
  Method : String
  Path : String
  Handler : Handler
  Middleware : List Middleware

/-- An `App` instance for a single run: what its hooks return and what
`Routes()` yields. -/
structure AppModel where
  onStartResult : Except String Unit
  onStopResult : Except String Unit
  Routes : List Route

/-- The lifecycle effects `RunWithCORS` performs, in program order. -/
inductive Ev
  | startHealthServer (port : Int)
  | callOnStart
  | setHealthy (b : Bool)
  | setReady (b : Bool)
  | registerRoute (method path : String)
  | registerOptionsRoute (path : String)
  | startMainServer (port : Int)
  | shutdownMainServer
  | shutdownHealthServer
  | callOnStop
  deriving Repr, DecidableEq

/-- Replay a lifecycle event against the health tracker (only the two
setter calls touch it). -/
def applyEv (h : HealthStatus) : Ev → HealthStatus
  | Ev.setHealthy b => h.SetHealthy b
  | Ev.setReady b => h.SetReady b
  | _ => h

/-- `RunWithCORS` from `bedrock.go` as a trace of lifecycle effects
plus its return value (`none` is Go's `nil`).  The run is followed to
the arrival of a termination signal and through the shutdown sequence.
The CORS configuration shapes per-request response headers only, never
the lifecycle, so it does not appear in the trace.  Note the source:
the health server is started unconditionally, before `OnStart`, on
`cfg.HealthPort`; there is no comparison of `cfg.HTTPPort` with
`cfg.HealthPort` and no reserved-path check on the declared routes. -/
def RunWithCORS (app : AppModel) (cfg : BaseConfig) : List Ev × Option String :=
  let startEvents := [Ev.startHealthServer cfg.HealthPort, Ev.callOnStart]
  match app.onStartResult with
  | Except.error e => (startEvents, some ("failed to start app: " ++ e))
  | Except.ok _ =>
    if app.Routes.isEmpty then
      (startEvents ++
        [Ev.setHealthy true, Ev.setReady true, Ev.shutdownHealthServer,
         Ev.callOnStop], none)
    else
      let registrations := app.Routes.flatMap fun r =>
        [Ev.registerRoute r.Method r.Path, Ev.registerOptionsRoute r.Path]
      (startEvents ++ [Ev.setHealthy true] ++ registrations ++
        [Ev.startMainServer cfg.HTTPPort, Ev.setReady true, Ev.setReady false,
         Ev.shutdownMainServer, Ev.shutdownHealthServer, Ev.callOnStop], none)

/-- `Run` delegates to `RunWithCORS` with `DefaultCORSConfig()`. -/
def Run (app : AppModel) (cfg : BaseConfig) : List Ev × Option String :=
  RunWithCORS app cfg

/-! ### Config loader (`config/config.go`: `Loader.Load`,
`applyEnvOverrides`, `setFieldFromString`)

The destination struct is modelled by its reflected shape: a list of
fields, each a settable-or-not leaf of some kind or a nested struct.
`toml.DecodeFile` is an external collaborator; its effect on the
destination is an opaque field transformation, and the three file
situations (missing, malformed, decodable) drive `Load`'s control
flow exactly as `os.IsNotExist` does in the source. -/

/-- `strconv.ParseInt(value, 10, 64)` — on this platform identical to
`strconv.Atoi`'s grammar and range. -/
def goParseInt64 (s : String) : Option Int := goAtoi s

/-- `strconv.ParseUint(value, 10, 64)`: decimal digits only, no sign
prefix, 64-bit range. -/
def goParseUint64 (s : String) : Option Nat :=
  (goParseDigits s.data).bind fun n =>
    if n ≤ 2 ^ 64 - 1 then some n else none

/-- `strconv.ParseBool`: exactly these twelve strings. -/
def goParseBool (s : String) : Option Bool :=
  if s = "1" ∨ s = "t" ∨ s = "T" ∨ s = "TRUE" ∨ s = "true" ∨ s = "True" then some true
  else if s = "0" ∨ s = "f" ∨ s = "F" ∨ s = "FALSE" ∨ s = "false" ∨ s = "False" then some false
  else none

def stripSign (cs : List Char) : List Char :=
  match cs with
  | '+' :: rest => rest
  | '-' :: rest => rest
  | _ => cs

def digitsOnly (cs : List Char) : Bool :=
  !cs.isEmpty && cs.all (fun c => c.isDigit)

def mantissaOk (cs : List Char) : Bool :=
  match splitChar '.' cs with
  | [a] => digitsOnly a
  | [a, b] =>
    (digitsOnly a && digitsOnly b) || (a.isEmpty && digitsOnly b) ||
      (digitsOnly a && b.isEmpty)
  | _ => false

/-- Acceptance of `strconv.ParseFloat(value, 64)`, modelled on its
decimal grammar `[sign] (digits[.digits] | .digits | digits.) [e[sign]
digits]` and the special `inf`/`infinity`/`nan` forms (case-insensitive).
The library's hexadecimal float syntax is omitted as an out-of-scope
library detail; no claim exercises float fields. -/
def goParseFloatOk (s : String) : Bool :=
  let cs := stripSign s.data
  let low : String := ⟨cs.map Char.toLower⟩
  if low = "inf" || low = "infinity" || low = "nan" then true
  else
    match splitChar 'e' (cs.map Char.toLower) with
    | [m] => mantissaOk m
    | [m, ex] => mantissaOk m && digitsOnly (stripSign ex)
    | _ => false

/-- A leaf value with its reflect kind.  `vFloat` keeps the literal
text of the last value written (float arithmetic is out of scope and
no claim depends on a float's value, only on parse success).  `vOther`
is any kind outside `setFieldFromString`'s switch. -/
inductive FieldVal
  | vStr (s : String)
  | vInt (n : Int)
  | vUint (n : Nat)
  | vBool (b : Bool)
  | vFloat (lit : String)
  | vOther
  deriving Repr, DecidableEq

mutual
/-- One reflected struct field: a leaf of some kind, or a nested
struct (which `applyEnvOverridesRecursive` descends into before ever
looking at tags). -/
inductive Field
  | leaf (name envTag : String) (canSet : Bool) (v : FieldVal)
  | nested (name : String) (canSet : Bool) (fs : Fields)

/-- The reflected field list of a struct. -/
inductive Fields
  | nil
  | cons (f : Field) (fs : Fields)
end

/-- The inner error of `setFieldFromString`, carrying what the Go
error string interpolates: `cannot parse %q as <kind> for field %s`. -/
inductive EnvError
  | cannotParse (kind value fieldName : String)
  | unsupportedKind (fieldName : String)
  deriving Repr, DecidableEq

/-- Errors out of `Loader.Load`.  `envSetFailed` is the wrap `failed
to set field %s from env %s: %w`, so the surfaced error names the
field, the environment variable and (inside) the offending value. -/
inductive LoadError
  | nilConfig
  | notPointer (typeDesc : String)
  | notPointerToStruct (kindDesc : String)
  | decodeError (path : String)
  | envSetFailed (fieldName envVar : String) (inner : EnvError)
  deriving Repr, DecidableEq

/-- `setFieldFromString` from `config/config.go`. -/
def setFieldFromString (v : FieldVal) (value : String) (fieldName : String) :
    Except EnvError FieldVal :=
  match v with
  | FieldVal.vStr _ => Except.ok (FieldVal.vStr value)
  | FieldVal.vInt _ =>
    match goParseInt64 value with
    | some n => Except.ok (FieldVal.vInt n)
    | none => Except.error (EnvError.cannotParse "int" value fieldName)
  | FieldVal.vUint _ =>
    match goParseUint64 value with
    | some n => Except.ok (FieldVal.vUint n)
    | none => Except.error (EnvError.cannotParse "uint" value fieldName)
  | FieldVal.vBool _ =>
    match goParseBool value with
    | some b => Except.ok (FieldVal.vBool b)
    | none => Except.error (EnvError.cannotParse "bool" value fieldName)
  | FieldVal.vFloat _ =>
    if goParseFloatOk value then Except.ok (FieldVal.vFloat value)
    else Except.error (EnvError.cannotParse "float" value fieldName)
  | FieldVal.vOther => Except.error (EnvError.unsupportedKind fieldName)

mutual
/-- One step of `applyEnvOverridesRecursive`: skip unsettable fields,
recurse into struct fields, and otherwise overlay a set, non-empty
environment value. -/
def applyEnvField (getenv : Env) : Field → Except LoadError Field
  | Field.leaf name envTag canSet v =>
    if !canSet then Except.ok (Field.leaf name envTag canSet v)
    else if envTag = "" then Except.ok (Field.leaf name envTag canSet v)
    else
      let envValue := getenv envTag
      if envValue = "" then Except.ok (Field.leaf name envTag canSet v)
      else
        match setFieldFromString v envValue name with
        | Except.ok v2 => Except.ok (Field.leaf name envTag canSet v2)
        | Except.error e => Except.error (LoadError.envSetFailed name envTag e)
  | Field.nested name canSet fs =>
    if !canSet then Except.ok (Field.nested name canSet fs)
    else
      match applyEnvFields getenv fs with
      | Except.ok fs2 => Except.ok (Field.nested name canSet fs2)
      | Except.error e => Except.error e

/-- `applyEnvOverridesRecursive` over the field list, stopping at the
first failure. -/
def applyEnvFields (getenv : Env) : Fields → Except LoadError Fields
  | Fields.nil => Except.ok Fields.nil
  | Fields.cons f fs =>
    match applyEnvField getenv f with
    | Except.error e => Except.error e
    | Except.ok f2 =>
      match applyEnvFields getenv fs with
      | Except.error e => Except.error e
      | Except.ok fs2 => Except.ok (Fields.cons f2 fs2)
end

/-- The `config interface{}` argument as `reflect` classifies it in
`Load`'s guard chain. -/
inductive ConfigArg
  | nilArg
  | nonPointer (typeDesc : String)
  | pointerToNonStruct (kindDesc : String)
  | pointerToStruct (s : Fields)

/-- The state of the TOML file at the loader's path.  A decodable
file's effect on the destination struct is an opaque transformation
(the decoder is an external collaborator). -/
inductive TomlFile
  | missing
  | malformed
  | wellFormed (decode : Fields → Fields)

/-- `Loader.Load` from `config/config.go`: argument guards, then the
decode step (`os.IsNotExist` is not an error), then the environment
overlay. -/
def Load (getenv : Env) (file : TomlFile) (path : String) (config : ConfigArg) :
    Except LoadError Fields :=
  match config with
  | ConfigArg.nilArg => Except.error LoadError.nilConfig
  | ConfigArg.nonPointer t => Except.error (LoadError.notPointer t)
  | ConfigArg.pointerToNonStruct k => Except.error (LoadError.notPointerToStruct k)
  | ConfigArg.pointerToStruct s =>
    match file with
    | TomlFile.malformed => Except.error (LoadError.decodeError path)
    | TomlFile.missing => applyEnvFields getenv s
    | TomlFile.wellFormed decode => applyEnvFields getenv (decode s)

/-! ## Theorems -/

/-- C9: `Chain(handler, m1, …, mn)` equals the nested application
`m1 (m2 (… mn handler …))`: it is the identity on an empty middleware
list, peels the first middleware as the outermost wrapper (so its
logic runs first and it decides whether to invoke the rest of the
chain), and in closed form is the right fold of application over the
supplied order, ending at the terminal handler. -/
theorem chain_is_nested_application (handler : Handler) (m : Middleware)
    (middlewares : List Middleware) :
    Chain handler [] = handler ∧
    Chain handler (m :: middlewares) = m (Chain handler middlewares) ∧
    Chain handler middlewares = middlewares.foldr (fun mw h => mw h) handler := by
  refine ⟨rfl, ?_, ?_⟩
  · show ((m :: middlewares).reverse).foldl (fun final mw => mw final) handler = _
    rw [List.reverse_cons, List.foldl_append]
    rfl
  · show (middlewares.reverse).foldl (fun final mw => mw final) handler = _
    rw [List.foldl_reverse]

/-- Case analysis of `resolvePort`: unset variable falls back, a value
that parses wins, a value that does not parse falls back. -/
theorem resolvePort_cases (getenv : Env) (label : String) (fallback : Int) :
    (getenv ("NOMAD_PORT_" ++ label) = "" →
      resolvePort getenv label fallback = fallback) ∧
    (∀ n, goAtoi (getenv ("NOMAD_PORT_" ++ label)) = some n →
      resolvePort getenv label fallback = n) ∧
    (goAtoi (getenv ("NOMAD_PORT_" ++ label)) = none →
      resolvePort getenv label fallback = fallback) := by
  refine ⟨fun h => by simp [resolvePort, h], fun n h => ?_, fun h => ?_⟩
  · by_cases he : getenv ("NOMAD_PORT_" ++ label) = ""
    · rw [he] at h
      have hnone : goAtoi "" = none := rfl
      rw [hnone] at h
      exact absurd h (by simp)
    · simp [resolvePort, he, h]
  · simp [resolvePort, h]

/-- C3: for each label, a set and parsable `NOMAD_PORT_<label>` wins
over the field's current value (whatever overlays already produced
it); an absent variable leaves the field value unchanged; a set but
unparsable variable falls back to the field value (the warning is a
log side effect outside the model). -/
theorem nomad_port_resolution (getenv : Env) (b : BaseConfig) :
    ((getenv "NOMAD_PORT_http" = "" → b.GetHTTPPort getenv = b.HTTPPort) ∧
      (∀ n, goAtoi (getenv "NOMAD_PORT_http") = some n → b.GetHTTPPort getenv = n) ∧
      (getenv "NOMAD_PORT_http" ≠ "" → goAtoi (getenv "NOMAD_PORT_http") = none →
        b.GetHTTPPort getenv = b.HTTPPort)) ∧
    ((getenv "NOMAD_PORT_health" = "" → b.GetHealthPort getenv = b.HealthPort) ∧
      (∀ n, goAtoi (getenv "NOMAD_PORT_health") = some n → b.GetHealthPort getenv = n) ∧
      (getenv "NOMAD_PORT_health" ≠ "" → goAtoi (getenv "NOMAD_PORT_health") = none →
        b.GetHealthPort getenv = b.HealthPort)) ∧
    ((getenv "NOMAD_PORT_metrics" = "" → b.GetMetricsPort getenv = b.MetricsPort) ∧
      (∀ n, goAtoi (getenv "NOMAD_PORT_metrics") = some n → b.GetMetricsPort getenv = n) ∧
      (getenv "NOMAD_PORT_metrics" ≠ "" → goAtoi (getenv "NOMAD_PORT_metrics") = none →
        b.GetMetricsPort getenv = b.MetricsPort)) := by
  exact ⟨⟨(resolvePort_cases getenv "http" b.HTTPPort).1,
      (resolvePort_cases getenv "http" b.HTTPPort).2.1,
      fun _ h => (resolvePort_cases getenv "http" b.HTTPPort).2.2 h⟩,
    ⟨(resolvePort_cases getenv "health" b.HealthPort).1,
      (resolvePort_cases getenv "health" b.HealthPort).2.1,
      fun _ h => (resolvePort_cases getenv "health" b.HealthPort).2.2 h⟩,
    ⟨(resolvePort_cases getenv "metrics" b.MetricsPort).1,
      (resolvePort_cases getenv "metrics" b.MetricsPort).2.1,
      fun _ h => (resolvePort_cases getenv "metrics" b.MetricsPort).2.2 h⟩⟩

/-- A concrete environment for exercising the Nomad port getters. -/
def nomadEnvW : Env := fun k =>
  if k = "NOMAD_PORT_http" then "12345"
  else if k = "NOMAD_PORT_health" then "abc" else ""

/-- A concrete base configuration. -/
def baseCfgW : BaseConfig := ⟨8080, 9090, 9100, "info", "dev"⟩

/-- Witness: a parsable `NOMAD_PORT_http` wins, an unparsable
`NOMAD_PORT_health` falls back, an absent `NOMAD_PORT_metrics` leaves
the field value. -/
theorem nomad_port_resolution_witness :
    baseCfgW.GetHTTPPort nomadEnvW = 12345 ∧
    baseCfgW.GetHealthPort nomadEnvW = 9090 ∧
    baseCfgW.GetMetricsPort nomadEnvW = 9100 :=
  ⟨(nomad_port_resolution nomadEnvW baseCfgW).1.2.1 12345 (by decide),
    (nomad_port_resolution nomadEnvW baseCfgW).2.1.2.2 (by decide) (by decide),
    (nomad_port_resolution nomadEnvW baseCfgW).2.2.1 (by decide)⟩

/-- In a trace that opens with the health-server start and the
`OnStart` call, anything preceding a `SetHealthy(true)` contains the
`OnStart` call. -/
theorem callOnStart_mem_of_setHealthy_split {hp : Int} {rest pre post : List Ev}
    (h : Ev.startHealthServer hp :: Ev.callOnStart :: rest =
      pre ++ Ev.setHealthy true :: post) :
    Ev.callOnStart ∈ pre := by
  cases pre with
  | nil => simp at h
  | cons a pre1 =>
    cases pre1 with
    | nil => simp at h
    | cons b pre2 =>
      simp only [List.cons_append, List.cons.injEq] at h
      exact List.mem_cons_of_mem _ (h.2.1 ▸ List.mem_cons_self _ _)

/-- C8: the healthy flag, initially false, becomes true only after the
start hook has returned successfully: a failing `OnStart` makes the
run return the wrapped error while `SetHealthy(true)` never appears in
its trace (so the replayed tracker stays unhealthy), and in every run
whose trace performs `SetHealthy(true)` the `OnStart` call precedes it
and the hook succeeded. -/
theorem run_sets_healthy_only_after_onstart (app : AppModel) (cfg : BaseConfig) :
    (∀ e, app.onStartResult = Except.error e →
      (RunWithCORS app cfg).2 = some ("failed to start app: " ++ e) ∧
      Ev.setHealthy true ∉ (RunWithCORS app cfg).1 ∧
      ((RunWithCORS app cfg).1.foldl applyEv newHealthStatus).IsHealthy = false) ∧
    (∀ pre post, (RunWithCORS app cfg).1 = pre ++ Ev.setHealthy true :: post →
      Ev.callOnStart ∈ pre ∧ ∃ u, app.onStartResult = Except.ok u) := by
  constructor
  · intro e he
    refine ⟨by simp [RunWithCORS, he], by simp [RunWithCORS, he], ?_⟩
    simp [RunWithCORS, he, applyEv, newHealthStatus, HealthStatus.IsHealthy]
  · intro pre post htr
    cases hs : app.onStartResult with
    | error e =>
      simp only [RunWithCORS, hs] at htr
      have hmem : Ev.setHealthy true ∈
          ([Ev.startHealthServer cfg.HealthPort, Ev.callOnStart] : List Ev) := by
        rw [htr]
        exact List.mem_append_right _ (List.mem_cons_self _ _)
      simp at hmem
    | ok u =>
      refine ⟨?_, u, rfl⟩
      by_cases hr : app.Routes.isEmpty
      · simp only [RunWithCORS, hs, hr, if_pos, List.cons_append, List.nil_append] at htr
        exact callOnStart_mem_of_setHealthy_split htr
      · simp only [RunWithCORS, hs, hr, if_neg, Bool.false_eq_true, ite_false,
          List.cons_append, List.nil_append, List.append_assoc] at htr
        exact callOnStart_mem_of_setHealthy_split htr

/-- An app whose start hook fails. -/
def failingAppW : AppModel := ⟨Except.error "boom", Except.ok (), []⟩

/-- Witness: a failing start hook propagates the wrapped error and the
trace never sets the healthy flag. -/
theorem run_sets_healthy_only_after_onstart_witness :
    (RunWithCORS failingAppW baseCfgW).2 = some "failed to start app: boom" ∧
    Ev.setHealthy true ∉ (RunWithCORS failingAppW baseCfgW).1 ∧
    ((RunWithCORS failingAppW baseCfgW).1.foldl applyEv newHealthStatus).IsHealthy
      = false :=
  (run_sets_healthy_only_after_onstart failingAppW baseCfgW).1 "boom" rfl

/-- C10: with no declared routes and a successful start hook, the run
is exactly: start the health listener, call `OnStart`, set healthy
then ready immediately, and — once the termination signal arrives —
shut the health server down, call `OnStop`, and return nil; no main
listener is ever started and no route is ever registered. -/
theorem run_background_mode (app : AppModel) (cfg : BaseConfig)
    (hr : app.Routes = []) (hs : app.onStartResult = Except.ok ()) :
    RunWithCORS app cfg =
      ([Ev.startHealthServer cfg.HealthPort, Ev.callOnStart, Ev.setHealthy true,
        Ev.setReady true, Ev.shutdownHealthServer, Ev.callOnStop], none) ∧
    (∀ p, Ev.startMainServer p ∉ (RunWithCORS app cfg).1) ∧
    (∀ m pa, Ev.registerRoute m pa ∉ (RunWithCORS app cfg).1) := by
  have hE : app.Routes.isEmpty = true := by rw [hr]; rfl
  have htr : RunWithCORS app cfg =
      ([Ev.startHealthServer cfg.HealthPort, Ev.callOnStart, Ev.setHealthy true,
        Ev.setReady true, Ev.shutdownHealthServer, Ev.callOnStop], none) := by
    simp [RunWithCORS, hs, hE]
  refine ⟨htr, fun p => ?_, fun m pa => ?_⟩
  · rw [htr]
    simp
  · rw [htr]
    simp

/-- An app with no routes and successful hooks. -/
def backgroundAppW : AppModel := ⟨Except.ok (), Except.ok (), []⟩

/-- Witness: the background-mode trace at a concrete app and config. -/
theorem run_background_mode_witness :
    RunWithCORS backgroundAppW baseCfgW =
      ([Ev.startHealthServer 9090, Ev.callOnStart, Ev.setHealthy true,
        Ev.setReady true, Ev.shutdownHealthServer, Ev.callOnStop], none) :=
  (run_background_mode backgroundAppW baseCfgW rfl rfl).1

/-- C1 (evaluation at the failing input): with `HTTPPort = HealthPort
= 8080` the runner still starts the independent health listener on
8080 as well as the main listener on 8080 — `RunWithCORS` has no
single-port mode and never compares the two configured ports. -/
theorem equal_ports_still_start_two_listeners :
    (BaseConfig.mk 8080 8080 9100 "info" "dev").HTTPPort =
      (BaseConfig.mk 8080 8080 9100 "info" "dev").HealthPort ∧
    Ev.startHealthServer 8080 ∈
      (RunWithCORS
        (AppModel.mk (Except.ok ()) (Except.ok ())
          [Route.mk "GET" "/users" (fun _ _ => JSON 200 []) []])
        (BaseConfig.mk 8080 8080 9100 "info" "dev")).1 ∧
    Ev.startMainServer 8080 ∈
      (RunWithCORS
        (AppModel.mk (Except.ok ()) (Except.ok ())
          [Route.mk "GET" "/users" (fun _ _ => JSON 200 []) []])
        (BaseConfig.mk 8080 8080 9100 "info" "dev")).1 := by
  refine ⟨rfl, ?_, ?_⟩ <;> simp [RunWithCORS]

/-- C2 (evaluation at the failing input): an application route on the
reserved path `/health` is registered and the main listener started,
and the run still returns nil — no route-conflict check exists in
`RunWithCORS`. -/
theorem health_path_route_not_rejected :
    (RunWithCORS
        (AppModel.mk (Except.ok ()) (Except.ok ())
          [Route.mk "GET" "/health" (fun _ _ => JSON 200 []) []])
        (BaseConfig.mk 8080 8080 9100 "info" "dev")).2 = none ∧
    Ev.registerRoute "GET" "/health" ∈
      (RunWithCORS
        (AppModel.mk (Except.ok ()) (Except.ok ())
          [Route.mk "GET" "/health" (fun _ _ => JSON 200 []) []])
        (BaseConfig.mk 8080 8080 9100 "info" "dev")).1 ∧
    Ev.startMainServer 8080 ∈
      (RunWithCORS
        (AppModel.mk (Except.ok ()) (Except.ok ())
          [Route.mk "GET" "/health" (fun _ _ => JSON 200 []) []])
        (BaseConfig.mk 8080 8080 9100 "info" "dev")).1 := by
  refine ⟨rfl, ?_, ?_⟩ <;> simp [RunWithCORS]

mutual
/-- With no environment variables set, the overlay leaves a field
unchanged. -/
theorem applyEnvField_emptyEnv : ∀ f : Field, applyEnvField (fun _ => "") f = Except.ok f
  | Field.leaf name envTag canSet v => by
    by_cases hc : canSet
    · by_cases ht : envTag = "" <;> simp [applyEnvField, hc, ht]
    · simp [applyEnvField, hc]
  | Field.nested name canSet fs => by
    by_cases hc : canSet
    · simp [applyEnvField, hc, applyEnvFields_emptyEnv fs]
    · simp [applyEnvField, hc]

/-- With no environment variables set, the overlay leaves the whole
struct unchanged. -/
theorem applyEnvFields_emptyEnv : ∀ fs : Fields, applyEnvFields (fun _ => "") fs = Except.ok fs
  | Fields.nil => by simp [applyEnvFields]
  | Fields.cons f fs => by
    simp [applyEnvFields, applyEnvField_emptyEnv f, applyEnvFields_emptyEnv fs]
end

/-- C7: `Load` rejects a nil, non-pointer, or non-struct destination;
a missing file is no error (zero values are kept and the environment
overlay still runs — in particular an empty environment returns the
zero-valued struct); a malformed file is a decode error; and an
environment value that does not parse for an int field produces a
conversion error naming the field, the variable, and the offending
value. -/
theorem load_argument_and_error_behaviour (getenv : Env) (file : TomlFile)
    (path td kd : String) (s : Fields) :
    Load getenv file path ConfigArg.nilArg = Except.error LoadError.nilConfig ∧
    Load getenv file path (ConfigArg.nonPointer td) =
      Except.error (LoadError.notPointer td) ∧
    Load getenv file path (ConfigArg.pointerToNonStruct kd) =
      Except.error (LoadError.notPointerToStruct kd) ∧
    Load getenv TomlFile.malformed path (ConfigArg.pointerToStruct s) =
      Except.error (LoadError.decodeError path) ∧
    Load (fun _ => "") TomlFile.missing path (ConfigArg.pointerToStruct s) =
      Except.ok s ∧
    Load getenv TomlFile.missing path (ConfigArg.pointerToStruct s) =
      applyEnvFields getenv s ∧
    (∀ name envTag i value rest,
      envTag ≠ "" → getenv envTag = value → value ≠ "" →
      goParseInt64 value = none →
      Load getenv TomlFile.missing path
        (ConfigArg.pointerToStruct
          (Fields.cons (Field.leaf name envTag true (FieldVal.vInt i)) rest)) =
        Except.error (LoadError.envSetFailed name envTag
          (EnvError.cannotParse "int" value name))) := by
  refine ⟨rfl, rfl, rfl, rfl, ?_, rfl, ?_⟩
  · show applyEnvFields (fun _ => "") s = Except.ok s
    exact applyEnvFields_emptyEnv s
  · intro name envTag i value rest ht hv hnz hp
    show applyEnvFields getenv
      (Fields.cons (Field.leaf name envTag true (FieldVal.vInt i)) rest) = _
    rw [applyEnvFields]
    have : applyEnvField getenv (Field.leaf name envTag true (FieldVal.vInt i)) =
        Except.error (LoadError.envSetFailed name envTag
          (EnvError.cannotParse "int" value name)) := by
      rw [applyEnvField]
      rw [hv]
      simp [ht, hnz, setFieldFromString, hp]
    rw [this]

/-- A one-field struct with an int field overridable from
`MAX_CONNECTIONS`. -/
def intFieldW : Fields :=
  Fields.cons (Field.leaf "MaxConnections" "MAX_CONNECTIONS" true (FieldVal.vInt 0))
    Fields.nil

/-- An environment whose `MAX_CONNECTIONS` does not parse as an
integer. -/
def badEnvW : Env := fun k => if k = "MAX_CONNECTIONS" then "not-a-number" else ""

/-- Witness: the loader surfaces the conversion error with the field
name, the variable name and the offending value, and a missing file
with an empty environment returns the zero-valued struct. -/
theorem load_argument_and_error_behaviour_witness :
    Load badEnvW TomlFile.missing "config.toml" (ConfigArg.pointerToStruct intFieldW) =
      Except.error (LoadError.envSetFailed "MaxConnections" "MAX_CONNECTIONS"
        (EnvError.cannotParse "int" "not-a-number" "MaxConnections")) ∧
    Load (fun _ => "") TomlFile.missing "config.toml"
        (ConfigArg.pointerToStruct intFieldW) =
      Except.ok intFieldW :=
  ⟨(load_argument_and_error_behaviour badEnvW TomlFile.missing "config.toml" "" ""
      intFieldW).2.2.2.2.2.2 "MaxConnections" "MAX_CONNECTIONS" 0 "not-a-number"
      Fields.nil (by decide) rfl (by decide) (by decide),
    (load_argument_and_error_behaviour (fun _ => "") TomlFile.missing "config.toml"
      "" "" intFieldW).2.2.2.2.1⟩

/-- Whether a validation result is an error. -/
def errResult : Except String String → Bool
  | Except.error _ => true
  | Except.ok _ => false

instance : DecidableEq (Except String String) := fun x y =>
  match x, y with
  | Except.ok a, Except.ok b =>
    if h : a = b then isTrue (h ▸ rfl)
    else isFalse fun hc => h (Except.ok.inj hc)
  | Except.error a, Except.error b =>
    if h : a = b then isTrue (h ▸ rfl)
    else isFalse fun hc => h (Except.error.inj hc)
  | Except.ok _, Except.error _ => isFalse fun hc => Except.noConfusion hc
  | Except.error _, Except.ok _ => isFalse fun hc => Except.noConfusion hc

/-- C4: `ValidateJWT` errors whenever the token does not split into
the three-part structure, or its algorithm is unregistered or outside
the HMAC family the keyfunc accepts, or the claims segment does not
decode, or the signature does not verify under the exact supplied
secret, or the decoded claims lack a string `sub`; and it returns a
subject only when the token is three-part with a registered HMAC
algorithm, decodable claims, a signature valid under the secret, and
a string `sub` — which is the subject returned. -/
theorem validateJWT_rejects_and_accepts (now : Int) (ts secret : String) :
    ((¬ ∃ h p s, splitChar '.' ts.data = [h, p, s]) →
      errResult (ValidateJWT now ts secret) = true) ∧
    (∀ h p s, splitChar '.' ts.data = [h, p, s] → algOfName ⟨h⟩ = none →
      errResult (ValidateJWT now ts secret) = true) ∧
    (∀ h p s alg, splitChar '.' ts.data = [h, p, s] → algOfName ⟨h⟩ = some alg →
      alg.isHMAC = false → errResult (ValidateJWT now ts secret) = true) ∧
    (∀ h p s, splitChar '.' ts.data = [h, p, s] → decodeClaimsL p = none →
      errResult (ValidateJWT now ts secret) = true) ∧
    (∀ h p s, splitChar '.' ts.data = [h, p, s] →
      s ≠ hmacSigL (h ++ '.' :: p) secret →
      errResult (ValidateJWT now ts secret) = true) ∧
    (∀ h p s claims, splitChar '.' ts.data = [h, p, s] →
      decodeClaimsL p = some claims →
      (∀ u, lookupClaim "sub" claims ≠ some (ClaimVal.str u)) →
      errResult (ValidateJWT now ts secret) = true) ∧
    (∀ uid, ValidateJWT now ts secret = Except.ok uid →
      ∃ h p alg claims,
        splitChar '.' ts.data = [h, p, hmacSigL (h ++ '.' :: p) secret] ∧
        algOfName ⟨h⟩ = some alg ∧ alg.isHMAC = true ∧
        decodeClaimsL p = some claims ∧ expiredAt now claims = false ∧
        lookupClaim "sub" claims = some (ClaimVal.str uid)) := by
  refine ⟨?_, ?_, ?_, ?_, ?_, ?_, ?_⟩
  · intro hno
    rcases hsp : splitChar '.' ts.data with _ | ⟨a, _ | ⟨b, _ | ⟨c, _ | ⟨d, l⟩⟩⟩⟩
    · simp [ValidateJWT, hsp, errResult]
    · simp [ValidateJWT, hsp, errResult]
    · simp [ValidateJWT, hsp, errResult]
    · exact absurd ⟨a, b, c, hsp⟩ hno
    · simp [ValidateJWT, hsp, errResult]
  · intro h p s hsp halg
    simp [ValidateJWT, hsp, halg, errResult]
  · intro h p s alg hsp halg hnh
    rcases hd : decodeClaimsL p with _ | claims
    · simp [ValidateJWT, hsp, halg, hnh, hd, errResult]
    · simp [ValidateJWT, hsp, halg, hnh, hd, errResult]
  · intro h p s hsp hd
    rcases halg : algOfName ⟨h⟩ with _ | alg
    · simp [ValidateJWT, hsp, halg, errResult]
    · by_cases hh : alg.isHMAC
      · simp [ValidateJWT, hsp, halg, hh, hd, errResult]
      · simp [ValidateJWT, hsp, halg, hh, hd, errResult]
  · intro h p s hsp hsig
    rcases halg : algOfName ⟨h⟩ with _ | alg
    · simp [ValidateJWT, hsp, halg, errResult]
    · by_cases hh : alg.isHMAC
      · rcases hd : decodeClaimsL p with _ | claims
        · simp [ValidateJWT, hsp, halg, hh, hd, errResult]
        · simp [ValidateJWT, hsp, halg, hh, hd, hsig, errResult]
      · simp [ValidateJWT, hsp, halg, hh, errResult]
  · intro h p s claims hsp hd hnosub
    rcases halg : algOfName ⟨h⟩ with _ | alg
    · simp [ValidateJWT, hsp, halg, errResult]
    · by_cases hh : alg.isHMAC
      · by_cases hsig : s = hmacSigL (h ++ '.' :: p) secret
        · by_cases hexp : expiredAt now claims
          · simp [ValidateJWT, hsp, halg, hh, hd, hsig, hexp, errResult]
          · rcases hsub : lookupClaim "sub" claims with _ | cv
            · simp [ValidateJWT, hsp, halg, hh, hd, hsig, hexp, hsub, errResult]
            · cases cv with
              | str u => exact absurd hsub (hnosub u)
              | num n =>
                simp [ValidateJWT, hsp, halg, hh, hd, hsig, hexp, hsub, errResult]
        · simp [ValidateJWT, hsp, halg, hh, hd, hsig, errResult]
      · simp [ValidateJWT, hsp, halg, hh, errResult]
  · intro uid hok
    rw [ValidateJWT] at hok
    rcases hsp : splitChar '.' ts.data with _ | ⟨a, _ | ⟨b, _ | ⟨c, _ | ⟨d, l⟩⟩⟩⟩ <;>
      rw [hsp] at hok
    · simp at hok
    · simp at hok
    · simp at hok
    · rcases halg : algOfName ⟨a⟩ with _ | alg
      · simp [halg] at hok
      · by_cases hh : alg.isHMAC
        · rcases hd : decodeClaimsL b with _ | claims
          · simp [halg, hh, hd] at hok
          · by_cases hsig : c = hmacSigL (a ++ '.' :: b) secret
            · by_cases hexp : expiredAt now claims
              · simp [halg, hh, hd, hsig, hexp] at hok
              · rcases hsub : lookupClaim "sub" claims with _ | cv
                · simp [halg, hh, hd, hsig, hexp, hsub] at hok
                · cases cv with
                  | str u =>
                    simp [halg, hh, hd, hsig, hexp, hsub] at hok
                    subst hok
                    exact ⟨a, b, alg, claims, by rw [hsig], halg, hh, hd,
                      by simp [hexp], hsub⟩
                  | num n => simp [halg, hh, hd, hsig, hexp, hsub] at hok
            · simp [halg, hh, hd, hsig] at hok
        · simp [halg, hh] at hok
    · simp at hok

set_option maxRecDepth 8000 in
/-- Witness: a token whose header names an unregistered algorithm is
rejected, and a freshly issued HS256 token satisfies every acceptance
condition. -/
theorem validateJWT_rejects_and_accepts_witness :
    errResult (ValidateJWT 0 "XX.p.q" "k") = true ∧
    (∃ h p alg claims,
      splitChar '.' (GenerateJWT 0 "alice" "k" 60).data =
        [h, p, hmacSigL (h ++ '.' :: p) "k"] ∧
      algOfName ⟨h⟩ = some alg ∧ alg.isHMAC = true ∧
      decodeClaimsL p = some claims ∧ expiredAt 0 claims = false ∧
      lookupClaim "sub" claims = some (ClaimVal.str "alice")) :=
  ⟨(validateJWT_rejects_and_accepts 0 "XX.p.q" "k").2.1 "XX".data "p".data "q".data
      (by decide) (by decide),
    (validateJWT_rejects_and_accepts 0 (GenerateJWT 0 "alice" "k" 60) "k").2.2.2.2.2.2
      "alice" (by decide)⟩

set_option maxRecDepth 8000 in
/-- C5 counterexample: with the empty subject, `GenerateJWT` emits no
`sub` claim (`jwt.RegisteredClaims` marshals `Subject` with
`omitempty`), so validating the freshly issued token under the same
secret returns the missing-user-ID error instead of the subject. -/
theorem issue_validate_fails_on_empty_subject :
    ValidateJWT 0 (GenerateJWT 0 "" "secret" 5) "secret" =
      Except.error "missing user ID in token" ∧
    ValidateJWT 0 (GenerateJWT 0 "" "secret" 5) "secret" ≠ Except.ok "" := by
  decide

/-- C5 (amended): for every nonempty subject, every secret, and every
positive ttl, validating a freshly issued token under the same secret
succeeds and returns the original subject. -/
theorem issue_then_validate_roundtrip (now : Int) (subject secret : String)
    (ttl : Int) (hs : subject ≠ "") (ht : 0 < ttl) :
    ValidateJWT now (GenerateJWT now subject secret ttl) secret =
      Except.ok subject := by
  have hclaims : (if subject = "" then ([] : List (String × ClaimVal))
      else [("sub", ClaimVal.str subject)]) ++
      [("exp", ClaimVal.num (now + ttl)), ("iat", ClaimVal.num now)] =
      [("sub", ClaimVal.str subject), ("exp", ClaimVal.num (now + ttl)),
        ("iat", ClaimVal.num now)] := by
    rw [if_neg hs]
    rfl
  set claims : List (String × ClaimVal) :=
    [("sub", ClaimVal.str subject), ("exp", ClaimVal.num (now + ttl)),
      ("iat", ClaimVal.num now)] with hcl
  set payload : List Char := encodeClaimsL claims with hpl
  set signing : List Char := "HS256".data ++ '.' :: payload with hsg
  have htok : GenerateJWT now subject secret ttl =
      ⟨signing ++ '.' :: hmacSigL signing secret⟩ := by
    simp only [GenerateJWT, Alg.name]
    rw [hclaims]
  rw [htok, ValidateJWT]
  have hdot_h : ('.' : Char) ∉ "HS256".data := by decide
  have hdot_p : ('.' : Char) ∉ payload := fun hm => mem_encodeClaimsL hm rfl
  have hdot_s : ('.' : Char) ∉ hmacSigL signing secret :=
    fun hm => mem_hmacSigL_ne_dot hm rfl
  have hsplit : splitChar '.'
      ((⟨signing ++ '.' :: hmacSigL signing secret⟩ : String).data) =
      ["HS256".data, payload, hmacSigL signing secret] := by
    show splitChar '.' (signing ++ '.' :: hmacSigL signing secret) = _
    have e1 : signing ++ '.' :: hmacSigL signing secret =
        "HS256".data ++ '.' :: (payload ++ '.' :: hmacSigL signing secret) := by
      rw [hsg]
      simp
    rw [e1]
    rw [splitChar_append_sep '.' "HS256".data
        (payload ++ '.' :: hmacSigL signing secret) hdot_h]
    rw [splitChar_append_sep '.' payload (hmacSigL signing secret) hdot_p]
    rw [splitChar_no_sep '.' (hmacSigL signing secret) hdot_s]
  rw [hsplit]
  have halg : algOfName ⟨"HS256".data⟩ = some Alg.HS256 := rfl
  have hdec : decodeClaimsL payload = some claims := by
    rw [hpl]
    exact decodeClaimsL_encodeClaimsL claims (by simp [hcl])
  have hexp : expiredAt now claims = false := by
    rw [hcl]
    show decide (now + ttl ≤ now) = false
    exact decide_eq_false (by omega)
  have hsub : lookupClaim "sub" claims = some (ClaimVal.str subject) := by
    rw [hcl]
    rfl
  simp [halg, hdec, hexp, hsub, Alg.isHMAC, hsg]

/-- Witness: a concrete issue/validate round trip. -/
theorem issue_then_validate_roundtrip_witness :
    ValidateJWT 7 (GenerateJWT 7 "alice" "topsecret" 30) "topsecret" =
      Except.ok "alice" :=
  issue_then_validate_roundtrip 7 "alice" "topsecret" 30 (by decide) (by decide)

/-- C6: the middleware built by `RequireAuth` responds 401 without
invoking `next` when the Authorization header is absent; 401 when the
header is not exactly two space-separated tokens with first token
`Bearer`; 401 when the bearer token fails validation against the
secret; and otherwise invokes `next` with a context from which
`GetUserID` returns the token's subject together with `true`. -/
theorem requireAuth_behaviour (now : Int) (secret : String) (next : Handler)
    (ctx : Context) (r : Request) :
    (headerGet r "Authorization" = "" →
      RequireAuth now secret next ctx r =
        JSON 401 [("error", "missing authorization header")]) ∧
    (headerGet r "Authorization" ≠ "" →
      (¬ ∃ tok, goSplit ' ' (headerGet r "Authorization") = ["Bearer", tok]) →
      RequireAuth now secret next ctx r =
        JSON 401 [("error", "invalid authorization format")]) ∧
    (∀ tok e, goSplit ' ' (headerGet r "Authorization") = ["Bearer", tok] →
      ValidateJWT now tok secret = Except.error e →
      RequireAuth now secret next ctx r = JSON 401 [("error", "invalid token")]) ∧
    (∀ tok uid, goSplit ' ' (headerGet r "Authorization") = ["Bearer", tok] →
      ValidateJWT now tok secret = Except.ok uid →
      RequireAuth now secret next ctx r = next (WithUserID ctx uid) r ∧
      GetUserID (WithUserID ctx uid) = (uid, true)) := by
  refine ⟨fun h => by simp [RequireAuth, h], ?_, ?_, ?_⟩
  · intro hne hnotok
    rcases hsp : goSplit ' ' (headerGet r "Authorization") with _ | ⟨a, _ | ⟨b, _ | ⟨c, l⟩⟩⟩
    · simp [RequireAuth, hne, hsp]
    · simp [RequireAuth, hne, hsp]
    · by_cases hb : a = "Bearer"
      · exact absurd ⟨b, by rw [hsp, hb]⟩ hnotok
      · simp [RequireAuth, hne, hsp, hb]
    · simp [RequireAuth, hne, hsp]
  · intro tok e hsp hval
    have hne : headerGet r "Authorization" ≠ "" := by
      intro h
      rw [h] at hsp
      simp [goSplit, splitChar] at hsp
    simp [RequireAuth, hne, hsp, hval]
  · intro tok uid hsp hval
    have hne : headerGet r "Authorization" ≠ "" := by
      intro h
      rw [h] at hsp
      simp [goSplit, splitChar] at hsp
    exact ⟨by simp [RequireAuth, hne, hsp, hval], rfl⟩

/-- A valid bearer token for the witness request. -/
def authTokW : String := GenerateJWT 0 "alice" "k" 30

/-- A request carrying the witness bearer token. -/
def authReqW : Request := ⟨[("Authorization", "Bearer " ++ authTokW)]⟩

/-- A downstream handler that reports the context's user id. -/
def nextW : Handler := fun ctx _ => JSON 200 [("uid", (GetUserID ctx).1)]

set_option maxRecDepth 8000 in
/-- Witness: a valid bearer token reaches the downstream handler with
the subject in context, and a missing header is rejected with 401. -/
theorem requireAuth_behaviour_witness :
    RequireAuth 0 "k" nextW [] authReqW = nextW (WithUserID [] "alice") authReqW ∧
    GetUserID (WithUserID [] "alice") = ("alice", true) ∧
    RequireAuth 0 "k" nextW [] ⟨[]⟩ =
      JSON 401 [("error", "missing authorization header")] :=
  ⟨((requireAuth_behaviour 0 "k" nextW [] authReqW).2.2.2 authTokW "alice"
      (by decide) (by decide)).1,
    ((requireAuth_behaviour 0 "k" nextW [] authReqW).2.2.2 authTokW "alice"
      (by decide) (by decide)).2,
    (requireAuth_behaviour 0 "k" nextW [] ⟨[]⟩).1 rfl⟩

end Bedrock
